import Mathlib

set_option maxHeartbeats 1000000

/-!
Verification development for the koatty_graphql GraphQL SDL to TypeScript
code generator.  The definitions below are a shallow embedding of the source
file `index.ts`: the process-wide mutable scalar type map is threaded as an
explicit `ScalarMap` value, JavaScript objects used as name-keyed maps are
association lists with insertion-order / overwrite-in-place semantics, and
the external `graphql` parser plus the filesystem are oracle parameters.
-/

/-- The scalar type registry (`typeMap` in the source): a JavaScript object
mapping scalar names to target primitive names, modelled as an association
list in insertion order. -/
abbrev ScalarMap := List (String × String)

/-- Initial contents of the module-level `typeMap`. -/
def defaultTypeMap : ScalarMap :=
  [("ID", "string"), ("String", "string"), ("Int", "number"),
   ("Float", "number"), ("Boolean", "boolean")]

/-- JavaScript truthy lookup `m[k]` used as a condition / with `||` fallback:
a present but empty-string value is falsy, hence treated as absent. -/
def jsLookup (m : ScalarMap) (k : String) : Option String :=
  match m.lookup k with
  | some v => if v = "" then none else some v
  | none => none

/-- JavaScript property assignment `m[k] = v` on an object: overwrites the
value at an existing key in place, otherwise appends the new key at the end. -/
def jsInsert {α : Type} : List (String × α) → String → α → List (String × α)
  | [], k, v => [(k, v)]
  | p :: rest, k, v => if p.1 = k then (k, v) :: rest else p :: jsInsert rest k v

/-- `getScalarTypeMap`: returns a frozen copy of the live scalar map.  In the
pure embedding the copy is the same value; freezing is inherent to purity. -/
def getScalarTypeMap (sm : ScalarMap) : ScalarMap := sm

/-- `updateScalarTypeMap`: `Object.assign(typeMap, map)` merges the overrides
into the live map, key by key in order. -/
def updateScalarTypeMap (sm : ScalarMap) (overrides : ScalarMap) : ScalarMap :=
  overrides.foldl (fun acc p => jsInsert acc p.1 p.2) sm

/-- GraphQL type reference AST (`TypeNode` of the `graphql` package):
a named type possibly wrapped in list and non-null wrappers. -/
inductive TypeNode where
  | named (name : String)
  | list (inner : TypeNode)
  | nonNull (inner : TypeNode)
deriving DecidableEq, Repr

/-- `getTypeName`: recursively flattens a type reference.  Non-null wrappers
are dropped, list wrappers append `[]`, and the base name goes through
`typeMap[name] || name` (truthy lookup with fallback). -/
def getTypeName (sm : ScalarMap) : TypeNode → String
  | .nonNull t => getTypeName sm t
  | .list t => getTypeName sm t ++ "[]"
  | .named n =>
    match jsLookup sm n with
    | some v => v
    | none => n

/-- Base name under all wrappers of a type reference. -/
def baseName : TypeNode → String
  | .named n => n
  | .list t => baseName t
  | .nonNull t => baseName t

/-- Number of list wrappers in a type reference. -/
def listCount : TypeNode → Nat
  | .named _ => 0
  | .list t => listCount t + 1
  | .nonNull t => listCount t

/-- `n` copies of the string `[]`. -/
def brackets : Nat → String
  | 0 => ""
  | n + 1 => brackets n ++ "[]"

/-- `InputValueDefinitionNode`: an argument or input-object field. -/
structure InputValueDef where
  name : String
  type : TypeNode
  description : Option String
deriving DecidableEq, Repr

/-- `FieldDefinitionNode`: a field of an object or interface definition.
`arguments` is optional in the AST. -/
structure FieldDef where
  name : String
  arguments : Option (List InputValueDef)
  type : TypeNode
  description : Option String
deriving DecidableEq, Repr

/-- Top-level definitions of a parsed document (`DocumentNode.definitions`).
`otherDef` stands for every definition kind the generator does not handle
(directives, schema definitions, extensions, ...). -/
inductive Definition where
  | objectDef (name : String) (description : Option String) (fields : Option (List FieldDef))
  | inputDef (name : String) (description : Option String) (fields : Option (List InputValueDef))
  | scalarDef (name : String) (description : Option String)
  | enumDef (name : String) (description : Option String) (values : Option (List String))
  | interfaceDef (name : String) (description : Option String) (fields : Option (List FieldDef))
  | unionDef (name : String) (description : Option String) (types : Option (List String))
  | otherDef (kind : String)
deriving DecidableEq, Repr

/-- A parsed document is its ordered list of top-level definitions. -/
abbrev Document := List Definition

/-- `FieldInfo` of the source. -/
structure FieldInfo where
  kind : String
  name : String
  type : String
  description : Option String
deriving DecidableEq, Repr

/-- `TypeDefinitionInfo` of the source. -/
structure TypeDefinitionInfo where
  kind : String
  name : String
  fields : List FieldInfo
  description : Option String
deriving DecidableEq, Repr

/-- `EnumTypeInfo` of the source. -/
structure EnumTypeInfo where
  kind : String
  name : String
  values : List String
  description : Option String
deriving DecidableEq, Repr

/-- `InterfaceTypeInfo` of the source. -/
structure InterfaceTypeInfo where
  kind : String
  name : String
  fields : List FieldInfo
  description : Option String
deriving DecidableEq, Repr

/-- `UnionTypeInfo` of the source. -/
structure UnionTypeInfo where
  kind : String
  name : String
  types : List String
  description : Option String
deriving DecidableEq, Repr

/-- `ExtendedTypeMap`: six name-keyed buckets, each a JavaScript object in
insertion order. -/
@[ext]
structure ExtendedTypeMap where
  objects : List (String × TypeDefinitionInfo)
  inputs : List (String × TypeDefinitionInfo)
  scalars : List (String × TypeDefinitionInfo)
  enums : List (String × EnumTypeInfo)
  interfaces : List (String × InterfaceTypeInfo)
  unions : List (String × UnionTypeInfo)
deriving DecidableEq, Repr

/-- `OperationArg` of the source. -/
structure OperationArg where
  name : String
  type : String
deriving DecidableEq, Repr

/-- `OperationField` of the source. -/
structure OperationField where
  name : String
  args : List OperationArg
  returnType : String
deriving DecidableEq, Repr

/-- `OperationsMap`: exactly the three root operation keys. -/
@[ext]
structure OperationsMap where
  Query : List OperationField
  Mutation : List OperationField
  Subscription : List OperationField
deriving DecidableEq, Repr

/-- `GenerateOptions`.  The source field `prefix` is a Lean keyword, so it is
named `pfx` here; everything else keeps its source name.  Absent options are
`none`, matching absent object properties. -/
structure GenerateOptions where
  pfx : Option String := none
  suffix : Option String := none
  useEnumType : Option Bool := none
  useInterfaceType : Option Bool := none
  outputDir : Option String := none
  strictNullChecks : Option Bool := none
deriving DecidableEq, Repr

/-- `GenerateResult`. -/
structure GenerateResult where
  filename : String
  content : String
deriving DecidableEq, Repr

/-- Conversion of one object/interface field (`FieldDefinitionNode`) into a
`FieldInfo`, as done inline in `parseExtendedTypes`. -/
def fieldInfoOf (sm : ScalarMap) (kind : String) (f : FieldDef) : FieldInfo :=
  ⟨kind, f.name, getTypeName sm f.type, f.description⟩

/-- Conversion of one input-object field into a `FieldInfo`. -/
def inputFieldInfoOf (sm : ScalarMap) (f : InputValueDef) : FieldInfo :=
  ⟨"InputObjectTypeDefinition", f.name, getTypeName sm f.type, f.description⟩

/-- One step of the `parseExtendedTypes` loop: dispatch on the definition
kind, build the info record and store it in the bucket keyed by name. -/
def stepExt (sm : ScalarMap) (result : ExtendedTypeMap) : Definition → ExtendedTypeMap
  | .objectDef name desc fields =>
    { result with objects := (jsInsert result.objects name
        ⟨"ObjectTypeDefinition", name,
         (fields.getD []).map (fieldInfoOf sm "ObjectTypeDefinition"), desc⟩) }
  | .inputDef name desc fields =>
    { result with inputs := (jsInsert result.inputs name
        ⟨"InputObjectTypeDefinition", name,
         (fields.getD []).map (inputFieldInfoOf sm), desc⟩) }
  | .scalarDef name desc =>
    { result with scalars := (jsInsert result.scalars name
        ⟨"ScalarTypeDefinition", name, [], desc⟩) }
  | .enumDef name desc values =>
    { result with enums := (jsInsert result.enums name
        ⟨"EnumTypeDefinition", name, values.getD [], desc⟩) }
  | .interfaceDef name desc fields =>
    { result with interfaces := (jsInsert result.interfaces name
        ⟨"InterfaceTypeDefinition", name,
         (fields.getD []).map (fieldInfoOf sm "InterfaceTypeDefinition"), desc⟩) }
  | .unionDef name desc types =>
    { result with unions := (jsInsert result.unions name
        ⟨"UnionTypeDefinition", name, types.getD [], desc⟩) }
  | .otherDef _ => result

/-- The empty `ExtendedTypeMap`. -/
def emptyExt : ExtendedTypeMap := ⟨[], [], [], [], [], []⟩

/-- `parseExtendedTypes`: one pass over the document, bucketing each
recognized definition and silently skipping the rest. -/
def parseExtendedTypes (sm : ScalarMap) (document : Document) : ExtendedTypeMap :=
  document.foldl (stepExt sm) emptyExt

/-- Conversion of one root field into an `OperationField`
(`parseOperations` loop body): absent argument lists become `[]`. -/
def opFieldOf (sm : ScalarMap) (f : FieldDef) : OperationField :=
  ⟨f.name,
   (f.arguments.getD []).map (fun a => ⟨a.name, getTypeName sm a.type⟩),
   getTypeName sm f.type⟩

/-- One step of the `parseOperations` loop: an object definition named
`Query`, `Mutation` or `Subscription` appends its converted fields to the
matching sequence; everything else is ignored. -/
def stepOps (sm : ScalarMap) (ops : OperationsMap) : Definition → OperationsMap
  | .objectDef name _ fields =>
    if name = "Query" then
      { ops with Query := ops.Query ++ (fields.getD []).map (opFieldOf sm) }
    else if name = "Mutation" then
      { ops with Mutation := ops.Mutation ++ (fields.getD []).map (opFieldOf sm) }
    else if name = "Subscription" then
      { ops with Subscription := ops.Subscription ++ (fields.getD []).map (opFieldOf sm) }
    else ops
  | _ => ops

/-- `parseOperations`. -/
def parseOperations (sm : ScalarMap) (document : Document) : OperationsMap :=
  document.foldl (stepOps sm) ⟨[], [], []⟩

/-- JavaScript `Array.prototype.join(sep)`. -/
def joinLines (sep : String) : List String → String
  | [] => ""
  | [a] => a
  | a :: rest => a ++ sep ++ joinLines sep rest

/-- `pat` occurs as a contiguous run somewhere in the character list. -/
def listContains (pat : List Char) : List Char → Bool
  | [] => pat.isEmpty
  | c :: rest => pat.isPrefixOf (c :: rest) || listContains pat rest

/-- JavaScript `String.prototype.includes(pat)`. -/
def strIncludes (s pat : String) : Bool := listContains pat.data s.data

/-- `pat` is a prefix of `s` (used to count rendered declarations). -/
def strStarts (s pat : String) : Bool := pat.data.isPrefixOf s.data

/-- `formatTypeName`: `(options.prefix || '') + name + (options.suffix || '')`. -/
def formatTypeName (name : String) (options : GenerateOptions) : String :=
  (options.pfx.getD "") ++ name ++ (options.suffix.getD "")

/-- `getTypeScriptType` on the reversed character list of the flattened type:
the source peels a trailing `[]` (`type.endsWith('[]')` / `type.slice(0,-2)`)
and recurses; at the base it formats the name but returns the scalar map
value unformatted when `scalarMap[type]` is truthy. -/
def tsTypeRev (sm : ScalarMap) (options : GenerateOptions) : List Char → String
  | ']' :: '[' :: rest => tsTypeRev sm options rest ++ "[]"
  | cs =>
    let type := String.mk cs.reverse
    let formattedName := formatTypeName type options
    match jsLookup (getScalarTypeMap sm) type with
    | some v => v
    | none => formattedName

/-- `getTypeScriptType`. -/
def getTypeScriptType (sm : ScalarMap) (type : String) (options : GenerateOptions) : String :=
  tsTypeRev sm options type.data.reverse

/-- `generateFieldDeclaration`: the optional marker appears only when the
flattened type has no `!` and `strictNullChecks` is truthy. -/
def generateFieldDeclaration (sm : ScalarMap) (field : FieldInfo) (options : GenerateOptions) : String :=
  let tsType := getTypeScriptType sm field.type options
  let optional := if (!(strIncludes field.type "!")) && options.strictNullChecks.getD false
                  then "?" else ""
  "  " ++ field.name ++ optional ++ ": " ++ tsType ++ ";"

/-- `generateTypeDefinition`. -/
def generateTypeDefinition (sm : ScalarMap) (info : TypeDefinitionInfo) (options : GenerateOptions) : String :=
  let typeName := formatTypeName info.name options
  let fields := joinLines "\n" (info.fields.map (fun f => generateFieldDeclaration sm f options))
  if info.kind = "ScalarTypeDefinition" then
    "export type " ++ typeName ++ " = string;"
  else
    "export interface " ++ typeName ++ " \x7b\n" ++ fields ++ "\n\x7d"

/-- `generateEnumDeclaration`. -/
def generateEnumDeclaration (info : EnumTypeInfo) (options : GenerateOptions) : String :=
  let enumName := formatTypeName info.name options
  let values := joinLines ",\n" (info.values.map (fun v => "  " ++ v ++ " = " ++ "'" ++ v ++ "'"))
  if options.useEnumType.getD false then
    "export const " ++ enumName ++ " = \x7b\n" ++ values ++ "\n\x7d as const;\n\nexport type "
      ++ enumName ++ " = typeof " ++ enumName ++ "[keyof typeof " ++ enumName ++ "];"
  else
    "export enum " ++ enumName ++ " \x7b\n" ++ values ++ "\n\x7d"

/-- `generateInterfaceDeclaration`. -/
def generateInterfaceDeclaration (sm : ScalarMap) (info : InterfaceTypeInfo) (options : GenerateOptions) : String :=
  let interfaceName := formatTypeName info.name options
  let fields := joinLines "\n" (info.fields.map (fun f => generateFieldDeclaration sm ⟨f.kind, f.name, f.type, f.description⟩ options))
  if options.useInterfaceType.getD false then
    "export interface " ++ interfaceName ++ " \x7b\n" ++ fields ++ "\n\x7d"
  else
    "export type " ++ interfaceName ++ " = \x7b\n" ++ fields ++ "\n\x7d;"

/-- `generateUnionDeclaration`. -/
def generateUnionDeclaration (info : UnionTypeInfo) (options : GenerateOptions) : String :=
  let unionName := formatTypeName info.name options
  let types := joinLines " | " (info.types.map (fun t => formatTypeName t options))
  "export type " ++ unionName ++ " = " ++ types ++ ";"

/-- Shared line-accumulation pattern of the aggregate generators: the banner
lines followed by one declaration and one blank line per entry. -/
def bannerAnd (header : String) (decls : List String) : String :=
  joinLines "\n" (["/* Auto-generated by koatty-graphql */", "", header, ""]
    ++ decls.foldl (fun acc d => acc ++ [d, ""]) [])

/-- `generateTypeScriptTypes` (iterates `Object.values`). -/
def generateTypeScriptTypes (sm : ScalarMap) (typeDefinitions : List (String × TypeDefinitionInfo)) (options : GenerateOptions) : String :=
  bannerAnd "// Type Definitions"
    ((typeDefinitions.map Prod.snd).map (fun i => generateTypeDefinition sm i options))

/-- `generateInputTypes`. -/
def generateInputTypes (sm : ScalarMap) (inputDefinitions : List (String × TypeDefinitionInfo)) (options : GenerateOptions) : String :=
  bannerAnd "// Input Types"
    ((inputDefinitions.map Prod.snd).map (fun i => generateTypeDefinition sm i options))

/-- `generateEnums`. -/
def generateEnums (enumDefinitions : List (String × EnumTypeInfo)) (options : GenerateOptions) : String :=
  bannerAnd "// Enum Types"
    ((enumDefinitions.map Prod.snd).map (fun i => generateEnumDeclaration i options))

/-- `generateInterfaces`. -/
def generateInterfaces (sm : ScalarMap) (interfaceDefinitions : List (String × InterfaceTypeInfo)) (options : GenerateOptions) : String :=
  bannerAnd "// Interface Types"
    ((interfaceDefinitions.map Prod.snd).map (fun i => generateInterfaceDeclaration sm i options))

/-- `generateUnions`. -/
def generateUnions (unionDefinitions : List (String × UnionTypeInfo)) (options : GenerateOptions) : String :=
  bannerAnd "// Union Types"
    ((unionDefinitions.map Prod.snd).map (fun i => generateUnionDeclaration i options))

/-- One rendered method signature of an operations interface. -/
def opFieldLine (sm : ScalarMap) (options : GenerateOptions) (f : OperationField) : String :=
  let args := joinLines ", " (f.args.map (fun a => a.name ++ ": " ++ getTypeScriptType sm a.type options))
  "  " ++ f.name ++ "(" ++ args ++ "): " ++ getTypeScriptType sm f.returnType options ++ ";"

/-- The four lines pushed for one root operation interface. -/
def opBlock (sm : ScalarMap) (options : GenerateOptions) (operationType : String) (fields : List OperationField) : List String :=
  ["export interface " ++ formatTypeName operationType options ++ " \x7b",
   joinLines "\n" (fields.map (opFieldLine sm options)),
   "\x7d", ""]

/-- The `lines` array built by `generateOperations` (`Object.entries` of the
operations map yields the three roots in declaration order, each one pushed
unconditionally). -/
def generateOperationsLines (sm : ScalarMap) (operations : OperationsMap) (options : GenerateOptions) : List String :=
  ["/* Auto-generated by koatty-graphql */", "", "// Operations", ""]
    ++ ([("Query", operations.Query), ("Mutation", operations.Mutation),
         ("Subscription", operations.Subscription)].foldl
          (fun acc p => acc ++ opBlock sm options p.1 p.2) [])

/-- `generateOperations`. -/
def generateOperations (sm : ScalarMap) (operations : OperationsMap) (options : GenerateOptions) : String :=
  joinLines "\n" (generateOperationsLines sm operations options)

/-- `generateAll`: classification and extraction once, then one output unit
per non-empty category, in fixed order. -/
def generateAll (sm : ScalarMap) (document : Document) (options : GenerateOptions) : List GenerateResult :=
  let extendedTypes := parseExtendedTypes sm document
  let operations := parseOperations sm document
  (if 0 < extendedTypes.objects.length then
    [⟨"types.ts", generateTypeScriptTypes sm extendedTypes.objects options⟩] else [])
  ++ (if 0 < extendedTypes.inputs.length then
    [⟨"inputs.ts", generateInputTypes sm extendedTypes.inputs options⟩] else [])
  ++ (if 0 < extendedTypes.enums.length then
    [⟨"enums.ts", generateEnums extendedTypes.enums options⟩] else [])
  ++ (if 0 < extendedTypes.interfaces.length then
    [⟨"interfaces.ts", generateInterfaces sm extendedTypes.interfaces options⟩] else [])
  ++ (if 0 < extendedTypes.unions.length then
    [⟨"unions.ts", generateUnions extendedTypes.unions options⟩] else [])
  ++ (if 0 < operations.Query.length ∨ 0 < operations.Mutation.length
        ∨ 0 < operations.Subscription.length then
    [⟨"operations.ts", generateOperations sm operations options⟩] else [])

/-- A filesystem oracle: path to contents. -/
abbrev FileSystem := List (String × String)

/-- `existsSync`. -/
def existsSync (fs : FileSystem) (p : String) : Bool := (fs.lookup p).isSome

/-- `readFileSync` (total on paths that exist; empty otherwise). -/
def readFileSync (fs : FileSystem) (p : String) : String := ((fs.lookup p).getD "")

/-- `GraphQLParseError`: message plus optional preserved cause. -/
structure GraphQLParseError where
  message : String
  cause : Option String
deriving DecidableEq, Repr

/-- `parseGraphqlDocument`.  The external grammar parser is an oracle
`parser`; the second component of the result is the trace of sources handed
to it (one entry per parse attempt).  A missing file raises the
missing-source error with an empty trace; a parser failure is wrapped with
the original failure as `cause`; a success is returned as is. -/
def parseGraphqlDocument (parser : String → Except String Document)
    (fs : FileSystem) (schemaFile : String) :
    Except GraphQLParseError Document × List String :=
  if existsSync fs schemaFile = false then
    (.error ⟨"Schema file not found: " ++ schemaFile, none⟩, [])
  else
    let source := readFileSync fs schemaFile
    match parser source with
    | .ok doc => (.ok doc, [source])
    | .error e => (.error ⟨"Failed to parse schema file: " ++ schemaFile, some e⟩, [source])

/-- Lookup against a sequence of key/value writes applied in order:
the value of the last write at the key, else the fallback. -/
def lastWins {α : Type} (ps : List (String × α)) (k : String) (fallback : Option α) : Option α :=
  match ps.reverse.find? (fun p => p.1 == k) with
  | some p => some p.2
  | none => fallback

/-- Whether a flattened type string ends with `[]` (what
`type.endsWith('[]')` tests in `getTypeScriptType`). -/
def endsWithBrackets (s : String) : Bool :=
  match s.data.reverse with
  | ']' :: '[' :: _ => true
  | _ => false

/-- Bucket selector for object definitions: key and stored info. -/
def objSel (sm : ScalarMap) : Definition → Option (String × TypeDefinitionInfo)
  | .objectDef name desc fields =>
    some (name, ⟨"ObjectTypeDefinition", name,
      (fields.getD []).map (fieldInfoOf sm "ObjectTypeDefinition"), desc⟩)
  | _ => none

/-- Bucket selector for input object definitions. -/
def inputSel (sm : ScalarMap) : Definition → Option (String × TypeDefinitionInfo)
  | .inputDef name desc fields =>
    some (name, ⟨"InputObjectTypeDefinition", name,
      (fields.getD []).map (inputFieldInfoOf sm), desc⟩)
  | _ => none

/-- Bucket selector for scalar definitions. -/
def scalarSel : Definition → Option (String × TypeDefinitionInfo)
  | .scalarDef name desc => some (name, ⟨"ScalarTypeDefinition", name, [], desc⟩)
  | _ => none

/-- Bucket selector for enum definitions. -/
def enumSel : Definition → Option (String × EnumTypeInfo)
  | .enumDef name desc values =>
    some (name, ⟨"EnumTypeDefinition", name, values.getD [], desc⟩)
  | _ => none

/-- Bucket selector for interface definitions. -/
def interfaceSel (sm : ScalarMap) : Definition → Option (String × InterfaceTypeInfo)
  | .interfaceDef name desc fields =>
    some (name, ⟨"InterfaceTypeDefinition", name,
      (fields.getD []).map (fieldInfoOf sm "InterfaceTypeDefinition"), desc⟩)
  | _ => none

/-- Bucket selector for union definitions. -/
def unionSel : Definition → Option (String × UnionTypeInfo)
  | .unionDef name desc types =>
    some (name, ⟨"UnionTypeDefinition", name, types.getD [], desc⟩)
  | _ => none

/-- One bucket of the classification, described independently of the record
fold: insert every selected definition in document order. -/
def collectBucket {α : Type} (sel : Definition → Option (String × α))
    (document : Document) : List (String × α) :=
  document.foldl (fun m d => match sel d with
    | some (k, v) => jsInsert m k v
    | none => m) []

/-- Recognized definition kinds (the six handled by the classifier). -/
def isRecognized : Definition → Bool
  | .otherDef _ => false
  | _ => true

/-- Whether a definition is an operation root
(an object definition named `Query`, `Mutation` or `Subscription`). -/
def isRootDef : Definition → Bool
  | .objectDef name _ _ =>
    name = "Query" || name = "Mutation" || name = "Subscription"
  | _ => false

/-- The contribution of one definition to one root's operation fields. -/
def rootContrib (sm : ScalarMap) (root : String) : Definition → List OperationField
  | .objectDef name _ fields =>
    if name = root then (fields.getD []).map (opFieldOf sm) else []
  | _ => []

/-- Scenario document: two object definitions sharing the name `A`. -/
def docDupA : Document :=
  [.objectDef "A" none (some [⟨"x", none, .named "ID", none⟩]),
   .objectDef "A" none (some [])]

/-- Scenario document: a fieldless root `type Query`. -/
def docQueryEmpty : Document := [.objectDef "Query" none none]

/-- Scenario document: `type Query { getUser(id: ID!): User }`. -/
def docQueryGetUser : Document :=
  [.objectDef "Query" none (some
    [⟨"getUser", some [⟨"id", .nonNull (.named "ID"), none⟩], .named "User", none⟩])]

theorem str_data_append (a b : String) : (a ++ b).data = a.data ++ b.data := by
  cases a
  cases b
  rfl

theorem str_append_nil (a : String) : a ++ "" = a := by
  cases a
  exact congrArg String.mk (List.append_nil _)

theorem str_append_assoc (a b c : String) : a ++ b ++ c = a ++ (b ++ c) := by
  cases a
  cases b
  cases c
  exact congrArg String.mk (List.append_assoc _ _ _)

theorem str_length_append (a b : String) : (a ++ b).length = a.length + b.length := by
  cases a
  cases b
  exact List.length_append _ _

/-- When no scalar map value is the empty string, the truthy lookup agrees
with the plain association lookup. -/
theorem jsLookup_eq_lookup (sm : ScalarMap) (h : ∀ p ∈ sm, p.2 ≠ "") (k : String) :
    jsLookup sm k = sm.lookup k := by
  induction sm with
  | nil => rfl
  | cons p rest ih =>
    have hp : p.2 ≠ "" := h p (List.mem_cons_self _ _)
    have hrest : ∀ q ∈ rest, q.2 ≠ "" := fun q hq => h q (List.mem_cons_of_mem _ hq)
    cases hk : k == p.1 with
    | true => simp [jsLookup, List.lookup, hk, hp]
    | false => simpa [jsLookup, List.lookup, hk] using ih hrest

/-- C1 helper: the flattening theorem. -/
theorem getTypeName_flatten (sm : ScalarMap) (h : ∀ p ∈ sm, p.2 ≠ "") (t : TypeNode) :
    getTypeName sm t = ((sm.lookup (baseName t)).getD (baseName t)) ++ brackets (listCount t) := by
  induction t with
  | named n =>
    simp only [getTypeName, baseName, listCount, brackets, str_append_nil]
    rw [← jsLookup_eq_lookup sm h n]
    cases hj : jsLookup sm n <;> simp [hj]
  | list t ih =>
    simp only [getTypeName, baseName, listCount, brackets]
    rw [ih, str_append_assoc]
  | nonNull t ih =>
    simpa [getTypeName, baseName, listCount] using ih

theorem strBeq_comm (a b : String) : (a == b) = (b == a) := by
  by_cases h : a = b
  · simp [h]
  · simp [h]
    exact fun hh => h hh.symm

theorem lookup_jsInsert {α : Type} (m : List (String × α)) (k' k : String) (v : α) :
    (jsInsert m k' v).lookup k = if k = k' then some v else m.lookup k := by
  induction m with
  | nil => by_cases hk : k = k' <;> simp [jsInsert, List.lookup_cons, beq_eq_decide, hk]
  | cons p rest ih =>
    obtain ⟨pk, pv⟩ := p
    by_cases hp : pk = k'
    · by_cases hk : k = k' <;>
        simp [jsInsert, List.lookup_cons, beq_eq_decide, hp, hk]
    · by_cases hk : k = pk
      · have hkk : ¬(k = k') := fun h => hp ((hk.symm.trans h) ▸ rfl)
        simp [jsInsert, List.lookup_cons, beq_eq_decide, hp, hk, hkk]
      · simp [jsInsert, List.lookup_cons, beq_eq_decide, hp, hk, ih]

theorem lookup_foldl_jsInsert {α : Type} (ps : List (String × α))
    (m : List (String × α)) (k : String) :
    ((ps.foldl (fun acc p => jsInsert acc p.1 p.2) m).lookup k)
      = lastWins ps k (m.lookup k) := by
  induction ps generalizing m with
  | nil => simp [lastWins]
  | cons p ps ih =>
    simp only [List.foldl_cons]
    rw [ih]
    simp only [lastWins, List.reverse_cons, List.find?_append]
    cases hf : ps.reverse.find? (fun q => q.1 == k) with
    | some q => simp [Option.or]
    | none =>
      by_cases hk : p.1 = k
      · simp [List.find?, beq_eq_decide, hk, lookup_jsInsert, Option.or]
      · have hk2 : ¬(k = p.1) := fun h => hk h.symm
        simp [List.find?, beq_eq_decide, hk, hk2, lookup_jsInsert, Option.or]

/-- C1: for every type reference built solely of list and non-null wrappers
around a base name, `getTypeName` returns the base name — replaced by its
scalar type map entry when one exists, otherwise verbatim — followed by
exactly `listCount t` occurrences of `[]` (one per list wrapper); non-null
wrappers influence neither part.  The hypothesis excludes empty-string map
values, which JavaScript's `||` fallback would treat as absent. -/
theorem C1_type_name_flattening (sm : ScalarMap) (h : ∀ p ∈ sm, p.2 ≠ "") (t : TypeNode) :
    getTypeName sm t
      = ((sm.lookup (baseName t)).getD (baseName t)) ++ brackets (listCount t) :=
  getTypeName_flatten sm h t

/-- C1 witness: the flattening theorem applied to the reference
`[String!]!` over the default scalar map. -/
theorem C1_type_name_flattening_witness :
    (∀ p ∈ defaultTypeMap, p.2 ≠ "")
    ∧ getTypeName defaultTypeMap (.nonNull (.list (.nonNull (.named "String"))))
        = ((defaultTypeMap.lookup
              (baseName (.nonNull (.list (.nonNull (.named "String")))))).getD
            (baseName (.nonNull (.list (.nonNull (.named "String"))))))
          ++ brackets (listCount (.nonNull (.list (.nonNull (.named "String"))))) :=
  ⟨by decide, C1_type_name_flattening defaultTypeMap (by decide) _⟩

/-- C7: the registry getter returns (a frozen copy of) the current scalar
map — in this pure embedding the snapshot is a separate value equal to the
live map, so caller-side changes to it cannot reach later resolution; the
setter merges the overrides into the live map with last-writer-wins lookup
semantics (new entries added, existing entries overwritten) and never
removes an entry; and after merging `{Date: "Date"}`, resolving a reference
to `Date` yields `"Date"`. -/
theorem C7_scalar_registry (sm overrides : ScalarMap) (k : String) :
    getScalarTypeMap sm = sm
    ∧ ((updateScalarTypeMap sm overrides).lookup k
        = lastWins overrides k (sm.lookup k))
    ∧ ((sm.lookup k).isSome = true → ((updateScalarTypeMap sm overrides).lookup k).isSome = true)
    ∧ getTypeName (updateScalarTypeMap defaultTypeMap [("Date", "Date")]) (.named "Date") = "Date" := by
  refine ⟨rfl, ?_, ?_, by decide⟩
  · simpa [updateScalarTypeMap] using lookup_foldl_jsInsert overrides sm k
  · intro h
    have hc := lookup_foldl_jsInsert overrides sm k
    rw [updateScalarTypeMap, hc]
    simp only [lastWins]
    cases hf : overrides.reverse.find? (fun p => p.1 == k) <;> simp [h]

/-- C7 witness: no removal, applied to the default map merged with the
`Date` override at key `ID`. -/
theorem C7_scalar_registry_witness :
    (defaultTypeMap.lookup "ID").isSome = true
    ∧ ((updateScalarTypeMap defaultTypeMap [("Date", "Date")]).lookup "ID").isSome = true :=
  ⟨by decide, (C7_scalar_registry defaultTypeMap [("Date", "Date")] "ID").2.2.1 (by decide)⟩

/-- C2: in a rendered field declaration the optional marker `?` follows the
field name exactly when `strictNullChecks` is set and the flattened type
string contains no `!`; and for the schema `type A { tags: [String!]! }`
with `strictNullChecks` on, the flattened field type is `string[]` and the
field renders optional as `  tags?: string[];`. -/
theorem C2_optional_marker (sm : ScalarMap) (f : FieldInfo) (o : GenerateOptions) :
    (generateFieldDeclaration sm f o
        = "  " ++ f.name ++ "?" ++ ": " ++ getTypeScriptType sm f.type o ++ ";"
      ↔ o.strictNullChecks.getD false = true ∧ strIncludes f.type "!" = false)
    ∧ (parseExtendedTypes defaultTypeMap
        [.objectDef "A" none
          (some [⟨"tags", none, .nonNull (.list (.nonNull (.named "String"))), none⟩])]).objects
        = [("A", ⟨"ObjectTypeDefinition", "A",
            [⟨"ObjectTypeDefinition", "tags", "string[]", none⟩], none⟩)]
    ∧ generateFieldDeclaration defaultTypeMap
        ⟨"ObjectTypeDefinition", "tags", "string[]", none⟩
        ⟨none, none, none, none, none, some true⟩
      = "  tags?: string[];" := by
  refine ⟨?_, by decide, by decide⟩
  constructor
  · intro h
    by_cases hc : ((!(strIncludes f.type "!")) && o.strictNullChecks.getD false) = true
    · simp only [Bool.and_eq_true, Bool.not_eq_true'] at hc
      exact ⟨hc.2, hc.1⟩
    · exfalso
      rw [Bool.not_eq_true] at hc
      have hlen := congrArg String.length h
      simp only [generateFieldDeclaration, hc, if_false, Bool.false_eq_true,
        str_length_append,
        show ("?" : String).length = 1 from rfl,
        show ("" : String).length = 0 from rfl] at hlen
      omega
  · rintro ⟨h1, h2⟩
    simp [generateFieldDeclaration, h1, h2]

theorem tsTypeRev_base (sm : ScalarMap) (o : GenerateOptions) (cs : List Char)
    (h : ∀ rest, cs ≠ ']' :: '[' :: rest) :
    tsTypeRev sm o cs = match jsLookup sm (String.mk cs.reverse) with
      | some v => v
      | none => formatTypeName (String.mk cs.reverse) o := by
  unfold tsTypeRev
  split
  · exact absurd rfl (h _)
  · rfl

theorem getTypeScriptType_base (sm : ScalarMap) (o : GenerateOptions) (s : String)
    (h : endsWithBrackets s = false) :
    getTypeScriptType sm s o = match jsLookup sm s with
      | some v => v
      | none => formatTypeName s o := by
  have hnot : ∀ rest, s.data.reverse ≠ ']' :: '[' :: rest := by
    intro rest hr
    unfold endsWithBrackets at h
    rw [hr] at h
    simp at h
  have hmk : String.mk (s.data.reverse.reverse) = s := by
    rw [List.reverse_reverse]
  unfold getTypeScriptType
  rw [tsTypeRev_base sm o _ hnot, hmk]

/-- C3 counterexample: the claim says a flattened scalar primitive such as
`string` is never affixed, but with prefix `I` the renderer produces
`Istring` (the scalar-map guard checks the already-lowered name against the
capitalized scalar keys, so it never fires for built-ins). -/
theorem C3_counterexample :
    getTypeScriptType defaultTypeMap "string" ⟨some "I", none, none, none, none, none⟩
      = "Istring"
    ∧ ("Istring" : String) ≠ "string" := by
  decide

/-- C3 (amended): the `prefix + rawName + suffix` formatting is applied to
every declared type name, every union member name and every referenced base
type name — including names the resolver already lowered to primitives such
as `string` — except when the referenced name is itself a (truthy) key of
the live scalar type map, in which case the mapped value is returned
unformatted. -/
theorem C3_amended_name_formatting (sm : ScalarMap) (o : GenerateOptions) (s : String)
    (info : TypeDefinitionInfo) (u : UnionTypeInfo) :
    (endsWithBrackets s = false → jsLookup sm s = none →
       getTypeScriptType sm s o = formatTypeName s o)
    ∧ (∀ v, endsWithBrackets s = false → jsLookup sm s = some v →
       getTypeScriptType sm s o = v)
    ∧ (info.kind ≠ "ScalarTypeDefinition" →
       ∃ rest, generateTypeDefinition sm info o
         = "export interface " ++ formatTypeName info.name o ++ rest)
    ∧ generateUnionDeclaration u o
        = "export type " ++ formatTypeName u.name o ++ " = "
          ++ joinLines " | " (u.types.map (fun t => formatTypeName t o)) ++ ";" := by
  refine ⟨?_, ?_, ?_, ?_⟩
  · intro hb hl
    rw [getTypeScriptType_base sm o s hb, hl]
  · intro v hb hl
    rw [getTypeScriptType_base sm o s hb, hl]
  · intro hk
    refine ⟨" \x7b\n" ++ joinLines "\n" (info.fields.map (fun f => generateFieldDeclaration sm f o)) ++ "\n\x7d", ?_⟩
    simp only [generateTypeDefinition, if_neg hk]
    simp [str_append_assoc]
  · simp only [generateUnionDeclaration]

/-- C3 witness: formatting applied to the non-scalar reference `User`
(giving `IUserDTO`), but the map-key reference `ID` resolves to `string`
unformatted. -/
theorem C3_amended_name_formatting_witness :
    (endsWithBrackets "User" = false ∧ jsLookup defaultTypeMap "User" = none
      ∧ getTypeScriptType defaultTypeMap "User" ⟨some "I", some "DTO", none, none, none, none⟩
          = formatTypeName "User" ⟨some "I", some "DTO", none, none, none, none⟩)
    ∧ (endsWithBrackets "ID" = false ∧ jsLookup defaultTypeMap "ID" = some "string"
      ∧ getTypeScriptType defaultTypeMap "ID" ⟨some "I", some "DTO", none, none, none, none⟩
          = "string") :=
  ⟨⟨by decide, by decide,
    (C3_amended_name_formatting defaultTypeMap
      ⟨some "I", some "DTO", none, none, none, none⟩ "User"
      ⟨"", "", [], none⟩ ⟨"", "", [], none⟩).1 (by decide) (by decide)⟩,
   ⟨by decide, by decide,
    (C3_amended_name_formatting defaultTypeMap
      ⟨some "I", some "DTO", none, none, none, none⟩ "ID"
      ⟨"", "", [], none⟩ ⟨"", "", [], none⟩).2.1 "string" (by decide) (by decide)⟩⟩

theorem foldl_stepExt_objects (sm : ScalarMap) (doc : Document) (acc : ExtendedTypeMap) :
    (doc.foldl (stepExt sm) acc).objects
      = (doc.filterMap (objSel sm)).foldl (fun m p => jsInsert m p.1 p.2) acc.objects := by
  induction doc generalizing acc with
  | nil => rfl
  | cons d ds ih => cases d <;> simp [stepExt, objSel, ih, List.filterMap_cons]

theorem foldl_stepExt_inputs (sm : ScalarMap) (doc : Document) (acc : ExtendedTypeMap) :
    (doc.foldl (stepExt sm) acc).inputs
      = (doc.filterMap (inputSel sm)).foldl (fun m p => jsInsert m p.1 p.2) acc.inputs := by
  induction doc generalizing acc with
  | nil => rfl
  | cons d ds ih => cases d <;> simp [stepExt, inputSel, ih, List.filterMap_cons]

theorem foldl_stepExt_scalars (sm : ScalarMap) (doc : Document) (acc : ExtendedTypeMap) :
    (doc.foldl (stepExt sm) acc).scalars
      = (doc.filterMap scalarSel).foldl (fun m p => jsInsert m p.1 p.2) acc.scalars := by
  induction doc generalizing acc with
  | nil => rfl
  | cons d ds ih => cases d <;> simp [stepExt, scalarSel, ih, List.filterMap_cons]

theorem foldl_stepExt_enums (sm : ScalarMap) (doc : Document) (acc : ExtendedTypeMap) :
    (doc.foldl (stepExt sm) acc).enums
      = (doc.filterMap enumSel).foldl (fun m p => jsInsert m p.1 p.2) acc.enums := by
  induction doc generalizing acc with
  | nil => rfl
  | cons d ds ih => cases d <;> simp [stepExt, enumSel, ih, List.filterMap_cons]

theorem foldl_stepExt_interfaces (sm : ScalarMap) (doc : Document) (acc : ExtendedTypeMap) :
    (doc.foldl (stepExt sm) acc).interfaces
      = (doc.filterMap (interfaceSel sm)).foldl (fun m p => jsInsert m p.1 p.2) acc.interfaces := by
  induction doc generalizing acc with
  | nil => rfl
  | cons d ds ih => cases d <;> simp [stepExt, interfaceSel, ih, List.filterMap_cons]

theorem foldl_stepExt_unions (sm : ScalarMap) (doc : Document) (acc : ExtendedTypeMap) :
    (doc.foldl (stepExt sm) acc).unions
      = (doc.filterMap unionSel).foldl (fun m p => jsInsert m p.1 p.2) acc.unions := by
  induction doc generalizing acc with
  | nil => rfl
  | cons d ds ih => cases d <;> simp [stepExt, unionSel, ih, List.filterMap_cons]

theorem filterMap_filter_recognized {α : Type} (sel : Definition → Option (String × α))
    (hsel : ∀ s, sel (.otherDef s) = none) (doc : Document) :
    (doc.filter isRecognized).filterMap sel = doc.filterMap sel := by
  induction doc with
  | nil => rfl
  | cons d ds ih =>
    cases d <;> simp [isRecognized, List.filter_cons, List.filterMap_cons, ih, hsel]

/-- C4 counterexample: in a document with two object definitions named `A`,
the later one overwrites the earlier in the objects bucket, so the first
definition (the one with field `x`) ends up in no bucket — contradicting
"no definition omitted". -/
theorem C4_counterexample :
    (parseExtendedTypes defaultTypeMap docDupA).objects
      = [("A", ⟨"ObjectTypeDefinition", "A", [], none⟩)]
    ∧ objSel defaultTypeMap (.objectDef "A" none (some [⟨"x", none, .named "ID", none⟩]))
        = some ("A", ⟨"ObjectTypeDefinition", "A",
            [⟨"ObjectTypeDefinition", "x", "string", none⟩], none⟩)
    ∧ ¬ (("A", (⟨"ObjectTypeDefinition", "A",
            [⟨"ObjectTypeDefinition", "x", "string", none⟩], none⟩ : TypeDefinitionInfo))
          ∈ (parseExtendedTypes defaultTypeMap docDupA).objects) := by
  decide

/-- C4 (amended): each recognized definition is classified into exactly the
bucket of its kind, keyed by name: for every name, each bucket holds the
conversion of the *last* definition of that kind with that name (so when
several same-kind definitions share a name the earlier ones are overwritten
and thus omitted; with distinct names every recognized definition appears
in exactly one bucket), and unrecognized definition kinds are skipped
without error and without any effect on the result. -/
theorem C4_amended_classification (sm : ScalarMap) (document : Document) (name : String) :
    ((parseExtendedTypes sm document).objects.lookup name
       = lastWins (document.filterMap (objSel sm)) name none)
    ∧ ((parseExtendedTypes sm document).inputs.lookup name
       = lastWins (document.filterMap (inputSel sm)) name none)
    ∧ ((parseExtendedTypes sm document).scalars.lookup name
       = lastWins (document.filterMap scalarSel) name none)
    ∧ ((parseExtendedTypes sm document).enums.lookup name
       = lastWins (document.filterMap enumSel) name none)
    ∧ ((parseExtendedTypes sm document).interfaces.lookup name
       = lastWins (document.filterMap (interfaceSel sm)) name none)
    ∧ ((parseExtendedTypes sm document).unions.lookup name
       = lastWins (document.filterMap unionSel) name none)
    ∧ parseExtendedTypes sm (document.filter isRecognized)
        = parseExtendedTypes sm document := by
  refine ⟨?_, ?_, ?_, ?_, ?_, ?_, ?_⟩
  · rw [parseExtendedTypes, foldl_stepExt_objects, lookup_foldl_jsInsert]
    rfl
  · rw [parseExtendedTypes, foldl_stepExt_inputs, lookup_foldl_jsInsert]
    rfl
  · rw [parseExtendedTypes, foldl_stepExt_scalars, lookup_foldl_jsInsert]
    rfl
  · rw [parseExtendedTypes, foldl_stepExt_enums, lookup_foldl_jsInsert]
    rfl
  · rw [parseExtendedTypes, foldl_stepExt_interfaces, lookup_foldl_jsInsert]
    rfl
  · rw [parseExtendedTypes, foldl_stepExt_unions, lookup_foldl_jsInsert]
    rfl
  · ext1
    · rw [parseExtendedTypes, parseExtendedTypes, foldl_stepExt_objects,
        foldl_stepExt_objects, filterMap_filter_recognized _ (fun s => rfl)]
    · rw [parseExtendedTypes, parseExtendedTypes, foldl_stepExt_inputs,
        foldl_stepExt_inputs, filterMap_filter_recognized _ (fun s => rfl)]
    · rw [parseExtendedTypes, parseExtendedTypes, foldl_stepExt_scalars,
        foldl_stepExt_scalars, filterMap_filter_recognized _ (fun s => rfl)]
    · rw [parseExtendedTypes, parseExtendedTypes, foldl_stepExt_enums,
        foldl_stepExt_enums, filterMap_filter_recognized _ (fun s => rfl)]
    · rw [parseExtendedTypes, parseExtendedTypes, foldl_stepExt_interfaces,
        foldl_stepExt_interfaces, filterMap_filter_recognized _ (fun s => rfl)]
    · rw [parseExtendedTypes, parseExtendedTypes, foldl_stepExt_unions,
        foldl_stepExt_unions, filterMap_filter_recognized _ (fun s => rfl)]

theorem foldl_stepOps_Query (sm : ScalarMap) (doc : Document) (acc : OperationsMap) :
    (doc.foldl (stepOps sm) acc).Query
      = acc.Query ++ doc.flatMap (rootContrib sm "Query") := by
  induction doc generalizing acc with
  | nil => simp
  | cons d ds ih =>
    rw [List.foldl_cons, ih, List.flatMap_cons]
    cases d
    case objectDef n desc fs =>
      by_cases h1 : n = "Query"
      · subst h1
        simp [stepOps, rootContrib, List.append_assoc]
      · by_cases h2 : n = "Mutation"
        · subst h2
          simp [stepOps, rootContrib]
        · by_cases h3 : n = "Subscription"
          · subst h3
            simp [stepOps, rootContrib]
          · simp [stepOps, rootContrib, h1, h2, h3]
    all_goals simp [stepOps, rootContrib]

theorem foldl_stepOps_Mutation (sm : ScalarMap) (doc : Document) (acc : OperationsMap) :
    (doc.foldl (stepOps sm) acc).Mutation
      = acc.Mutation ++ doc.flatMap (rootContrib sm "Mutation") := by
  induction doc generalizing acc with
  | nil => simp
  | cons d ds ih =>
    rw [List.foldl_cons, ih, List.flatMap_cons]
    cases d
    case objectDef n desc fs =>
      by_cases h1 : n = "Query"
      · subst h1
        simp [stepOps, rootContrib]
      · by_cases h2 : n = "Mutation"
        · subst h2
          simp [stepOps, rootContrib, List.append_assoc]
        · by_cases h3 : n = "Subscription"
          · subst h3
            simp [stepOps, rootContrib]
          · simp [stepOps, rootContrib, h1, h2, h3]
    all_goals simp [stepOps, rootContrib]

theorem foldl_stepOps_Subscription (sm : ScalarMap) (doc : Document) (acc : OperationsMap) :
    (doc.foldl (stepOps sm) acc).Subscription
      = acc.Subscription ++ doc.flatMap (rootContrib sm "Subscription") := by
  induction doc generalizing acc with
  | nil => simp
  | cons d ds ih =>
    rw [List.foldl_cons, ih, List.flatMap_cons]
    cases d
    case objectDef n desc fs =>
      by_cases h1 : n = "Query"
      · subst h1
        simp [stepOps, rootContrib]
      · by_cases h2 : n = "Mutation"
        · subst h2
          simp [stepOps, rootContrib]
        · by_cases h3 : n = "Subscription"
          · subst h3
            simp [stepOps, rootContrib, List.append_assoc]
          · simp [stepOps, rootContrib, h1, h2, h3]
    all_goals simp [stepOps, rootContrib]

theorem rootContrib_nil_of_not_root (sm : ScalarMap) (d : Definition) (root : String)
    (hroot : root = "Query" ∨ root = "Mutation" ∨ root = "Subscription")
    (h : isRootDef d = false) : rootContrib sm root d = [] := by
  cases d
  case objectDef n desc fs =>
    simp only [isRootDef, Bool.or_eq_false_iff, decide_eq_false_iff_not] at h
    have hn : n ≠ root := by
      rcases hroot with h1 | h1 | h1 <;> subst h1 <;> tauto
    simp [rootContrib, hn]
  all_goals rfl

/-- C5: `parseOperations` always returns the map with exactly the three
keys (empty by default); every root's sequence is exactly the concatenation,
in document order, of the contributions of the object definitions named for
that root — so fields from repeated roots accumulate (append, not replace),
definitions that are not roots (including non-object kinds and objects with
other names) contribute nothing, and a field with no declared argument list
gets an empty argument sequence, never an absent one. -/
theorem C5_operations_extraction (sm : ScalarMap) :
    parseOperations sm [] = ⟨[], [], []⟩
    ∧ (∀ doc : Document,
        (parseOperations sm doc).Query = doc.flatMap (rootContrib sm "Query")
        ∧ (parseOperations sm doc).Mutation = doc.flatMap (rootContrib sm "Mutation")
        ∧ (parseOperations sm doc).Subscription = doc.flatMap (rootContrib sm "Subscription"))
    ∧ (∀ d₁ d₂ : Document,
        (parseOperations sm (d₁ ++ d₂)).Query
          = (parseOperations sm d₁).Query ++ (parseOperations sm d₂).Query
        ∧ (parseOperations sm (d₁ ++ d₂)).Mutation
          = (parseOperations sm d₁).Mutation ++ (parseOperations sm d₂).Mutation
        ∧ (parseOperations sm (d₁ ++ d₂)).Subscription
          = (parseOperations sm d₁).Subscription ++ (parseOperations sm d₂).Subscription)
    ∧ (∀ (doc : Document) (d : Definition), isRootDef d = false →
        parseOperations sm (doc ++ [d]) = parseOperations sm doc)
    ∧ (∀ (fname : String) (t : TypeNode) (desc : Option String),
        (opFieldOf sm ⟨fname, none, t, desc⟩).args = []) := by
  have hQ : ∀ doc : Document,
      (parseOperations sm doc).Query = doc.flatMap (rootContrib sm "Query") := by
    intro doc
    rw [parseOperations, foldl_stepOps_Query]
    rfl
  have hM : ∀ doc : Document,
      (parseOperations sm doc).Mutation = doc.flatMap (rootContrib sm "Mutation") := by
    intro doc
    rw [parseOperations, foldl_stepOps_Mutation]
    rfl
  have hS : ∀ doc : Document,
      (parseOperations sm doc).Subscription = doc.flatMap (rootContrib sm "Subscription") := by
    intro doc
    rw [parseOperations, foldl_stepOps_Subscription]
    rfl
  refine ⟨rfl, fun doc => ⟨hQ doc, hM doc, hS doc⟩, ?_, ?_, fun fname t desc => rfl⟩
  · intro d₁ d₂
    refine ⟨?_, ?_, ?_⟩ <;>
      simp [hQ, hM, hS, List.flatMap_append]
  · intro doc d hd
    have hq0 := rootContrib_nil_of_not_root sm d "Query" (Or.inl rfl) hd
    have hm0 := rootContrib_nil_of_not_root sm d "Mutation" (Or.inr (Or.inl rfl)) hd
    have hs0 := rootContrib_nil_of_not_root sm d "Subscription" (Or.inr (Or.inr rfl)) hd
    ext1 <;> simp [hQ, hM, hS, List.flatMap_append, hq0, hm0, hs0]

/-- C5 witness: appending a non-root definition (a scalar) to the empty
document leaves the operations map unchanged. -/
theorem C5_operations_extraction_witness :
    isRootDef (.scalarDef "Foo" none) = false
    ∧ parseOperations defaultTypeMap ([] ++ [.scalarDef "Foo" none])
        = parseOperations defaultTypeMap [] :=
  ⟨by decide,
   (C5_operations_extraction defaultTypeMap).2.2.2.1 [] (.scalarDef "Foo" none) (by decide)⟩

/-- C6: `generateAll` emits its output units in the fixed order types,
inputs, enums, interfaces, unions, operations (its filename sequence is a
sublist of the canonical order); each category unit is present exactly when
the category is non-empty, with the operations unit present exactly when at
least one root sequence is non-empty; and the result has fewer than six
units whenever any category is empty. -/
theorem C6_orchestrator (sm : ScalarMap) (document : Document) (options : GenerateOptions) :
    List.Sublist ((generateAll sm document options).map GenerateResult.filename)
      ["types.ts", "inputs.ts", "enums.ts", "interfaces.ts", "unions.ts", "operations.ts"]
    ∧ ("types.ts" ∈ (generateAll sm document options).map GenerateResult.filename
        ↔ (parseExtendedTypes sm document).objects ≠ [])
    ∧ ("inputs.ts" ∈ (generateAll sm document options).map GenerateResult.filename
        ↔ (parseExtendedTypes sm document).inputs ≠ [])
    ∧ ("enums.ts" ∈ (generateAll sm document options).map GenerateResult.filename
        ↔ (parseExtendedTypes sm document).enums ≠ [])
    ∧ ("interfaces.ts" ∈ (generateAll sm document options).map GenerateResult.filename
        ↔ (parseExtendedTypes sm document).interfaces ≠ [])
    ∧ ("unions.ts" ∈ (generateAll sm document options).map GenerateResult.filename
        ↔ (parseExtendedTypes sm document).unions ≠ [])
    ∧ ("operations.ts" ∈ (generateAll sm document options).map GenerateResult.filename
        ↔ ((parseOperations sm document).Query ≠ []
            ∨ (parseOperations sm document).Mutation ≠ []
            ∨ (parseOperations sm document).Subscription ≠ []))
    ∧ (((parseExtendedTypes sm document).objects = []
        ∨ (parseExtendedTypes sm document).inputs = []
        ∨ (parseExtendedTypes sm document).enums = []
        ∨ (parseExtendedTypes sm document).interfaces = []
        ∨ (parseExtendedTypes sm document).unions = []
        ∨ ((parseOperations sm document).Query = []
            ∧ (parseOperations sm document).Mutation = []
            ∧ (parseOperations sm document).Subscription = []))
       → ((generateAll sm document options).map GenerateResult.filename).length < 6) := by
  simp only [generateAll]
  split_ifs <;>
    simp_all [List.length_pos, List.length_eq_zero] <;>
    first
    | decide
    | tauto

/-- C6 witness: on the empty document the objects category is empty and the
orchestrator outputs fewer than six units. -/
theorem C6_orchestrator_witness :
    (parseExtendedTypes defaultTypeMap []).objects = []
    ∧ ((generateAll defaultTypeMap [] ⟨none, none, none, none, none, none⟩).map
        GenerateResult.filename).length < 6 :=
  ⟨by decide,
   (C6_orchestrator defaultTypeMap [] ⟨none, none, none, none, none, none⟩).2.2.2.2.2.2.2
     (Or.inl (by decide))⟩

/-- C8: `parseGraphqlDocument` raises the missing-source error before any
parse attempt when the schema file does not exist (empty parse trace); when
the file exists it makes exactly one parse attempt, wrapping a parser
failure in an error that names the source path and preserves the original
failure as the cause, and returning a parser success unchanged — in every
case the outcome is surfaced directly to the caller. -/
theorem C8_parse_errors (parser : String → Except String Document)
    (fs : FileSystem) (p : String) :
    (existsSync fs p = false →
      parseGraphqlDocument parser fs p
        = (.error ⟨"Schema file not found: " ++ p, none⟩, []))
    ∧ (existsSync fs p = true →
        (parseGraphqlDocument parser fs p).2 = [readFileSync fs p]
        ∧ (∀ e, parser (readFileSync fs p) = .error e →
            (parseGraphqlDocument parser fs p).1
              = .error ⟨"Failed to parse schema file: " ++ p, some e⟩)
        ∧ (∀ doc, parser (readFileSync fs p) = .ok doc →
            (parseGraphqlDocument parser fs p).1 = .ok doc)) := by
  constructor
  · intro h
    simp [parseGraphqlDocument, h]
  · intro h
    refine ⟨?_, ?_, ?_⟩
    · simp only [parseGraphqlDocument, h]
      cases hp : parser (readFileSync fs p) <;> simp
    · intro e he
      simp only [parseGraphqlDocument, h]
      simp [he]
    · intro doc hd
      simp only [parseGraphqlDocument, h]
      simp [hd]

/-- C8 witness: a one-file filesystem with a parser that accepts only the
stored source; both the missing-file and the success paths are exercised. -/
theorem C8_parse_errors_witness :
    (existsSync [("a.graphql", "type Query")] "missing.graphql" = false
      ∧ parseGraphqlDocument
          (fun s => if s = "type Query" then .ok [.objectDef "Query" none none]
                    else .error "Syntax Error")
          [("a.graphql", "type Query")] "missing.graphql"
        = (.error ⟨"Schema file not found: " ++ "missing.graphql", none⟩, []))
    ∧ (existsSync [("a.graphql", "type Query")] "a.graphql" = true
      ∧ (parseGraphqlDocument
          (fun s => if s = "type Query" then .ok [.objectDef "Query" none none]
                    else .error "Syntax Error")
          [("a.graphql", "type Query")] "a.graphql").2
        = [readFileSync [("a.graphql", "type Query")] "a.graphql"]) :=
  ⟨⟨by decide,
    (C8_parse_errors
      (fun s => if s = "type Query" then .ok [.objectDef "Query" none none]
                else .error "Syntax Error")
      [("a.graphql", "type Query")] "missing.graphql").1 (by decide)⟩,
   ⟨by decide,
    ((C8_parse_errors
      (fun s => if s = "type Query" then .ok [.objectDef "Query" none none]
                else .error "Syntax Error")
      [("a.graphql", "type Query")] "a.graphql").2 (by decide)).1⟩⟩

theorem isPrefixOf_append_self {α : Type} [BEq α] [LawfulBEq α] (l r : List α) :
    l.isPrefixOf (l ++ r) = true := by
  induction l with
  | nil => simp [List.isPrefixOf]
  | cons a l ih => simp [List.isPrefixOf, ih]

theorem strStarts_export_hdr (x : String) :
    strStarts ("export interface " ++ x) "export interface" = true := by
  unfold strStarts
  rw [str_data_append,
    show ("export interface " : String).data
      = ("export interface" : String).data ++ [' '] from rfl,
    List.append_assoc]
  exact isPrefixOf_append_self _ _

theorem strStarts_spaces (x : String) :
    strStarts ("  " ++ x) "export interface" = false := by
  unfold strStarts
  rw [str_data_append,
    show ("export interface" : String).data
      = 'e' :: ("xport interface" : String).data from rfl,
    show ("  " : String).data = ' ' :: ' ' :: [] from rfl]
  simp [List.isPrefixOf]

theorem opFieldLine_spaces (sm : ScalarMap) (o : GenerateOptions) (f : OperationField) :
    ∃ t, opFieldLine sm o f = "  " ++ t := by
  refine ⟨f.name ++ "(" ++ joinLines ", "
      (f.args.map (fun a => a.name ++ ": " ++ getTypeScriptType sm a.type o))
      ++ "): " ++ getTypeScriptType sm f.returnType o ++ ";", ?_⟩
  simp [opFieldLine, str_append_assoc]

theorem joinLines_opFieldLines_spaces (sm : ScalarMap) (o : GenerateOptions)
    (f : OperationField) (rest : List OperationField) :
    ∃ t, joinLines "\n" ((f :: rest).map (opFieldLine sm o)) = "  " ++ t := by
  obtain ⟨t0, ht0⟩ := opFieldLine_spaces sm o f
  cases rest with
  | nil => exact ⟨t0, ht0⟩
  | cons g rest2 =>
    refine ⟨t0 ++ "\n" ++ joinLines "\n" ((g :: rest2).map (opFieldLine sm o)), ?_⟩
    simp [joinLines, ht0, str_append_assoc]

theorem fieldLines_not_hdr (sm : ScalarMap) (o : GenerateOptions)
    (l : List OperationField) :
    strStarts (joinLines "\n" (l.map (opFieldLine sm o))) "export interface" = false := by
  cases l with
  | nil => rfl
  | cons f rest =>
    obtain ⟨t, ht⟩ := joinLines_opFieldLines_spaces sm o f rest
    rw [ht]
    exact strStarts_spaces t

theorem countP_opBlock (sm : ScalarMap) (o : GenerateOptions)
    (root : String) (fields : List OperationField) :
    (opBlock sm o root fields).countP (fun l => strStarts l "export interface") = 1 := by
  simp [opBlock, List.countP_cons, str_append_assoc, strStarts_export_hdr,
    fieldLines_not_hdr,
    show strStarts "\x7d" "export interface" = false from rfl,
    show strStarts "" "export interface" = false from rfl]

theorem generateOperationsLines_eq (sm : ScalarMap) (ops : OperationsMap)
    (o : GenerateOptions) :
    generateOperationsLines sm ops o
      = ["/* Auto-generated by koatty-graphql */", "", "// Operations", ""]
        ++ opBlock sm o "Query" ops.Query ++ opBlock sm o "Mutation" ops.Mutation
        ++ opBlock sm o "Subscription" ops.Subscription := by
  simp [generateOperationsLines]

/-- C9: the operations renderer always emits exactly three interface
declarations — one per root operation name, in declaration order — even for
roots with no fields (those get an interface with empty body); and whenever
`generateAll` emits the operations unit, its content is exactly the
rendering of the extracted operations map. -/
theorem C9_operations_three_interfaces (sm : ScalarMap) (operations : OperationsMap)
    (options : GenerateOptions) (document : Document) (r : GenerateResult) :
    ((generateOperationsLines sm operations options).countP
        (fun l => strStarts l "export interface") = 3)
    ∧ ("export interface " ++ formatTypeName "Query" options ++ " \x7b")
        ∈ generateOperationsLines sm operations options
    ∧ ("export interface " ++ formatTypeName "Mutation" options ++ " \x7b")
        ∈ generateOperationsLines sm operations options
    ∧ ("export interface " ++ formatTypeName "Subscription" options ++ " \x7b")
        ∈ generateOperationsLines sm operations options
    ∧ (operations.Mutation = [] →
        ["export interface " ++ formatTypeName "Mutation" options ++ " \x7b", "", "\x7d"]
          <:+: generateOperationsLines sm operations options)
    ∧ (r ∈ generateAll sm document options → r.filename = "operations.ts" →
        r.content = generateOperations sm (parseOperations sm document) options) := by
  refine ⟨?_, ?_, ?_, ?_, ?_, ?_⟩
  · rw [generateOperationsLines_eq]
    simp [List.countP_append, countP_opBlock,
      show strStarts "/* Auto-generated by koatty-graphql */" "export interface" = false from rfl,
      show strStarts "// Operations" "export interface" = false from rfl,
      show strStarts "" "export interface" = false from rfl]
  · rw [generateOperationsLines_eq]
    simp [opBlock]
  · rw [generateOperationsLines_eq]
    simp [opBlock]
  · rw [generateOperationsLines_eq]
    simp [opBlock]
  · intro hM
    rw [generateOperationsLines_eq, hM]
    refine ⟨["/* Auto-generated by koatty-graphql */", "", "// Operations", ""]
        ++ opBlock sm options "Query" operations.Query,
      "" :: opBlock sm options "Subscription" operations.Subscription, ?_⟩
    simp [opBlock, joinLines]
  · intro hr hname
    simp only [generateAll, List.mem_append] at hr
    rcases hr with ((((h | h) | h) | h) | h) | h <;> split at h <;> simp_all

/-- C9 witness: with all three root sequences empty, the rendered lines
still contain the `Mutation` interface with an empty body. -/
theorem C9_operations_three_interfaces_witness :
    (⟨[], [], []⟩ : OperationsMap).Mutation = []
    ∧ ["export interface "
        ++ formatTypeName "Mutation" ⟨none, none, none, none, none, none⟩ ++ " \x7b", "", "\x7d"]
        <:+: generateOperationsLines defaultTypeMap ⟨[], [], []⟩
          ⟨none, none, none, none, none, none⟩ :=
  ⟨rfl,
   (C9_operations_three_interfaces defaultTypeMap ⟨[], [], []⟩
      ⟨none, none, none, none, none, none⟩ [] ⟨"x", "y"⟩).2.2.2.2.1 rfl⟩

/-- C10 counterexample: a fieldless `type Query` is classified into the
objects bucket and extracted (vacuously) by the operation extractor, yet it
is rendered only once: `types.ts` is emitted but the operations unit is
omitted because no root has a field. -/
theorem C10_counterexample :
    (generateAll defaultTypeMap docQueryEmpty ⟨none, none, none, none, none, none⟩).map
        GenerateResult.filename = ["types.ts"] := by
  decide

/-- C10 (amended): an object definition named `Query` is classified into
the objects bucket and its fields are extracted into the operations map, so
it is rendered in `types.ts`, and it is additionally rendered in
`operations.ts` provided the operations unit is emitted — which requires
some root to have at least one field; a root object with no fields in a
document whose roots are all fieldless is rendered only in `types.ts`.
On `type Query { getUser(id: ID!): User }` both units are emitted and both
contain an `export interface Query` declaration. -/
theorem C10_amended_dual_rendering (sm : ScalarMap) (document : Document)
    (options : GenerateOptions) (desc : Option String) (fs : Option (List FieldDef)) :
    ((Definition.objectDef "Query" desc fs) ∈ document →
      ((parseExtendedTypes sm document).objects.lookup "Query").isSome = true
      ∧ "types.ts" ∈ (generateAll sm document options).map GenerateResult.filename
      ∧ (fs.getD [] ≠ [] →
          (parseOperations sm document).Query ≠ []
          ∧ "operations.ts" ∈ (generateAll sm document options).map GenerateResult.filename))
    ∧ ((generateAll defaultTypeMap docQueryGetUser ⟨none, none, none, none, none, none⟩).map
        GenerateResult.filename = ["types.ts", "operations.ts"])
    ∧ ((generateAll defaultTypeMap docQueryGetUser ⟨none, none, none, none, none, none⟩).all
        (fun r => strIncludes r.content "export interface Query") = true) := by
  refine ⟨?_, by decide, by decide⟩
  intro hmem
  have hsel : ("Query",
      (⟨"ObjectTypeDefinition", "Query",
        (fs.getD []).map (fieldInfoOf sm "ObjectTypeDefinition"), desc⟩ : TypeDefinitionInfo))
      ∈ document.filterMap (objSel sm) :=
    List.mem_filterMap.mpr ⟨_, hmem, rfl⟩
  have hlook : ((parseExtendedTypes sm document).objects.lookup "Query").isSome = true := by
    rw [parseExtendedTypes, foldl_stepExt_objects, lookup_foldl_jsInsert]
    have hfind : (((document.filterMap (objSel sm)).reverse.find?
        (fun p => p.1 == "Query")).isSome) = true :=
      List.find?_isSome.mpr ⟨_, List.mem_reverse.mpr hsel, rfl⟩
    unfold lastWins
    cases hc : (document.filterMap (objSel sm)).reverse.find? (fun p => p.1 == "Query") with
    | none => rw [hc] at hfind; simp at hfind
    | some q => simp
  have hobj : (parseExtendedTypes sm document).objects ≠ [] := by
    intro h0
    rw [h0] at hlook
    simp [List.lookup] at hlook
  have hlen : 0 < (parseExtendedTypes sm document).objects.length :=
    List.length_pos.mpr hobj
  refine ⟨hlook, ?_, ?_⟩
  · simp [generateAll, hlen]
  · intro hfs
    obtain ⟨f, hf⟩ : ∃ f, f ∈ fs.getD [] := by
      cases hx : fs.getD [] with
      | nil => exact absurd hx hfs
      | cons a l => exact ⟨a, by simp [hx]⟩
    have hq : opFieldOf sm f ∈ (parseOperations sm document).Query := by
      rw [parseOperations, foldl_stepOps_Query]
      refine List.mem_append_right _ (List.mem_flatMap.mpr ⟨_, hmem, ?_⟩)
      simp [rootContrib]
      exact ⟨f, hf, rfl⟩
    have hqne : (parseOperations sm document).Query ≠ [] := List.ne_nil_of_mem hq
    have hqlen : 0 < (parseOperations sm document).Query.length := List.length_pos.mpr hqne
    refine ⟨hqne, ?_⟩
    simp [generateAll, hqlen]

/-- C10 witness: the dual-classification conjunct applied to the document
`type Query { getUser(id: ID!): User }`. -/
theorem C10_amended_dual_rendering_witness :
    ((Definition.objectDef "Query" none (some
        [⟨"getUser", some [⟨"id", .nonNull (.named "ID"), none⟩], .named "User", none⟩]))
      ∈ docQueryGetUser)
    ∧ (((parseExtendedTypes defaultTypeMap docQueryGetUser).objects.lookup "Query").isSome = true
      ∧ "types.ts" ∈ (generateAll defaultTypeMap docQueryGetUser
          ⟨none, none, none, none, none, none⟩).map GenerateResult.filename
      ∧ ((some [(⟨"getUser", some [⟨"id", .nonNull (.named "ID"), none⟩], .named "User", none⟩
            : FieldDef)]).getD [] ≠ [] →
          (parseOperations defaultTypeMap docQueryGetUser).Query ≠ []
          ∧ "operations.ts" ∈ (generateAll defaultTypeMap docQueryGetUser
              ⟨none, none, none, none, none, none⟩).map GenerateResult.filename)) :=
  ⟨by decide,
   (C10_amended_dual_rendering defaultTypeMap docQueryGetUser
      ⟨none, none, none, none, none, none⟩ none
      (some [⟨"getUser", some [⟨"id", .nonNull (.named "ID"), none⟩], .named "User", none⟩])).1
     (by decide)⟩
